import Mathlib

/-!
Verification development for the chat-app server (src/server/server.js).

The server keeps three pieces of mutable state relevant to the spec:
  - `users`        : a JS Map from socket id to { userId, username, roomId },
                     written on join_room, deleted on disconnect;
  - `roomUsers`    : a JS Map from room id to an array of
                     { userId, username, socketId } entries (join order);
  - `messagesStore`: the message log.  The repository keeps a MongoDB
                     collection and an in-memory fallback array behind the
                     same queries; we model the active store as one list.

JS Maps are modelled as association lists with unique keys (a JS Map can
never hold a key twice); arrays are lists.  Each socket event handler is a
pure function from the old state to the new state paired with the list of
events it emits, in emission order.
-/

namespace ChatApp

/-- A connected socket as the handlers see it: its transport id plus the
identity fields the auth middleware copied onto it from the token. -/
structure Socket where
  sockId : String
  userId : String
  username : String
deriving DecidableEq

/-- An entry of the `users` map: `users.set(socket.id, { userId, username, roomId })`. -/
structure Session where
  userId : String
  username : String
  roomId : String
deriving DecidableEq

/-- An entry of a room's membership array:
`roomUsers.get(roomId).push({ userId, username, socketId })`. -/
structure Member where
  userId : String
  username : String
  socketId : String
deriving DecidableEq

/-- A stored message (the fields of the message schema; `mid` is the
generated `_id`, `timestamp` is the Date in milliseconds). -/
structure Message where
  mid : String
  roomId : String
  username : String
  userId : String
  text : String
  timestamp : Nat
deriving DecidableEq

/-- `Map.get`: the value at the first (unique) entry with the given key. -/
def mapGet (k : String) (m : List (String × α)) : Option α :=
  (m.find? (fun p => p.1 == k)).map (·.2)

/-- `Map.set` for a key already present (update in place) or absent (append). -/
def mapSet (k : String) (v : α) (m : List (String × α)) : List (String × α) :=
  if (m.find? (fun p => p.1 == k)).isSome then
    m.map (fun p => if p.1 == k then (p.1, v) else p)
  else m ++ [(k, v)]

/-- `Map.delete`: remove the (unique) entry with the given key, if present. -/
def mapDelete (k : String) (m : List (String × α)) : List (String × α) :=
  m.eraseP (fun p => p.1 == k)

/-- `if (!roomUsers.has(roomId)) roomUsers.set(roomId, [])`. -/
def ensureRoom (roomId : String) (ru : List (String × List Member)) :
    List (String × List Member) :=
  if (mapGet roomId ru).isSome then ru else ru ++ [(roomId, [])]

/-- `roomUsers.get(roomId).push(mem)`: in-place append to the room's array. -/
def pushMember (roomId : String) (mem : Member) (ru : List (String × List Member)) :
    List (String × List Member) :=
  ru.map (fun p => if p.1 == roomId then (p.1, p.2 ++ [mem]) else p)

/-- The splice in leave_room / disconnect: remove the first entry of the
room's array whose socketId matches (a no-op when the room or entry is absent). -/
def removeMember (roomId sid : String) (ru : List (String × List Member)) :
    List (String × List Member) :=
  ru.map (fun p => if p.1 == roomId then (p.1, p.2.eraseP (fun u => u.socketId == sid)) else p)

/-- JS stable ascending sort by the comparator
`(a, b) => new Date(a.timestamp) - new Date(b.timestamp)`. -/
def sortByTimestamp (l : List Message) : List Message :=
  l.insertionSort (fun a b => a.timestamp ≤ b.timestamp)

/-- `Array.prototype.slice(-n)`: the last `n` elements (all of them when
fewer than `n`). -/
def lastN (n : Nat) (l : List α) : List α :=
  l.drop (l.length - n)

/-- The in-memory fallback history query (join_room handler and GET
/api/messages/:roomId): filter the store by room, take the last 50 pushed,
sort ascending by timestamp. -/
def recentMessagesFallback (roomId : String) (store : List Message) : List Message :=
  sortByTimestamp (lastN 50 (store.filter (fun m => m.roomId == roomId)))

/-- The MongoDB history query
`Message.find({ roomId }).sort({ timestamp: 1 }).limit(50)`: filter the
store by room, sort ascending by timestamp, take the first 50. -/
def recentMessagesMongo (roomId : String) (store : List Message) : List Message :=
  (sortByTimestamp (store.filter (fun m => m.roomId == roomId))).take 50

/-- The server's mutable state. -/
structure ServerState where
  users : List (String × Session)
  roomUsers : List (String × List Member)
  messagesStore : List Message
deriving DecidableEq

/-- The events the handlers emit, in emission order.  `loadMessages` is
private to one socket; the rest are room broadcasts. -/
inductive Emit where
  | loadMessages (sid : String) (msgs : List Message)
  | userJoined (roomId username userId : String) (members : List Member)
  | receiveMessage (roomId userId username text : String) (timestamp : Nat) (mid : String)
  | userLeft (roomId username userId : String) (members : List Member)
deriving DecidableEq

/-- The ordered membership list of a room (empty when the room is unknown). -/
def membersOf (roomId : String) (st : ServerState) : List Member :=
  (mapGet roomId st.roomUsers).getD []

/-- How many entries of a room's membership carry the given socket id. -/
def roomCount (sid roomId : String) (st : ServerState) : Nat :=
  (membersOf roomId st).countP (fun u => u.socketId == sid)

/-- The join_room handler.  `mongoConnected` selects the history branch and
`fetchOk` models whether the MongoDB query throws (the try/catch degrades a
failed fetch to an empty history; the in-memory branch cannot throw). -/
def joinRoom (socket : Socket) (roomId : String) (mongoConnected fetchOk : Bool)
    (st : ServerState) : ServerState × List Emit :=
  let users := mapSet socket.sockId ⟨socket.userId, socket.username, roomId⟩ st.users
  let ru := pushMember roomId ⟨socket.userId, socket.username, socket.sockId⟩
              (ensureRoom roomId st.roomUsers)
  let msgs := if mongoConnected then
                if fetchOk then recentMessagesMongo roomId st.messagesStore else []
              else recentMessagesFallback roomId st.messagesStore
  let st' : ServerState := { st with users := users, roomUsers := ru }
  (st', [Emit.loadMessages socket.sockId msgs,
         Emit.userJoined roomId socket.username socket.userId
           ((mapGet roomId ru).getD [])])

/-- The payload of a send_message event (all fields client-supplied). -/
structure SendPayload where
  roomId : String
  text : String
  username : String
  userId : String
deriving DecidableEq

/-- The send_message handler.  The store append is inside a try block:
`saveOk` models whether the MongoDB save throws (the in-memory push cannot);
on a throw the handler only logs, so nothing is stored and nothing is
broadcast.  `newId` is the generated `_id`, `now` the Date taken at send
time.  The handler reads no field of `socket` and performs no membership
check. -/
def sendMessage (socket : Socket) (data : SendPayload) (mongoConnected saveOk : Bool)
    (newId : String) (now : Nat) (st : ServerState) : ServerState × List Emit :=
  if (if mongoConnected then saveOk else true) then
    let message : Message := ⟨newId, data.roomId, data.username, data.userId, data.text, now⟩
    ({ st with messagesStore := st.messagesStore ++ [message] },
     [Emit.receiveMessage data.roomId data.userId data.username data.text
        message.timestamp message.mid])
  else (st, [])

/-- The payload of a leave_room event (all fields client-supplied). -/
structure LeavePayload where
  roomId : String
  userId : String
  username : String
deriving DecidableEq

/-- The leave_room handler: guarded only by `users.get(socket.id)` being
truthy; when it is, the splice runs against the payload's roomId and a
user_left event is emitted to that room unconditionally.  The `users` map
is not modified. -/
def leaveRoom (socket : Socket) (data : LeavePayload) (st : ServerState) :
    ServerState × List Emit :=
  match mapGet socket.sockId st.users with
  | none => (st, [])
  | some _ =>
    let ru := removeMember data.roomId socket.sockId st.roomUsers
    ({ st with roomUsers := ru },
     [Emit.userLeft data.roomId data.username data.userId ((mapGet data.roomId ru).getD [])])

/-- The disconnect handler: when a `users` entry exists, splice the stored
room's membership, broadcast user_left with the stored identity, then
delete the `users` entry (the delete runs unconditionally). -/
def disconnect (socket : Socket) (st : ServerState) : ServerState × List Emit :=
  match mapGet socket.sockId st.users with
  | some user =>
    let ru := removeMember user.roomId socket.sockId st.roomUsers
    ({ st with roomUsers := ru, users := mapDelete socket.sockId st.users },
     [Emit.userLeft user.roomId user.username user.userId ((mapGet user.roomId ru).getD [])])
  | none => ({ st with users := mapDelete socket.sockId st.users }, [])

/-- A room-protocol event as issued on one connection (everything but the
connect handshake).  The data parameters of `send` model the generated id,
the Date, and whether the store append throws. -/
inductive RoomOp where
  | join (roomId : String)
  | send (data : SendPayload) (saveOk : Bool) (newId : String) (now : Nat)
  | leave (data : LeavePayload)
  | disc
deriving DecidableEq

/-- Run one event handler for its state effect. -/
def stepOp (socket : Socket) (mongoConnected : Bool) (st : ServerState) (op : RoomOp) :
    ServerState :=
  match op with
  | .join roomId => (joinRoom socket roomId mongoConnected true st).1
  | .send d ok nid now => (sendMessage socket d mongoConnected ok nid now st).1
  | .leave d => (leaveRoom socket d st).1
  | .disc => (disconnect socket st).1

/-- Run a sequence of events issued on one connection. -/
def runOps (socket : Socket) (mongoConnected : Bool) (st : ServerState)
    (ops : List RoomOp) : ServerState :=
  ops.foldl (stepOp socket mongoConnected) st

/-- Along a run, every join_room targets a room whose membership does not
already list this connection. -/
def noRejoin (socket : Socket) (mongoConnected : Bool) (st : ServerState) :
    List RoomOp → Bool
  | [] => true
  | op :: rest =>
    (match op with
     | .join roomId => roomCount socket.sockId roomId st == 0
     | _ => true) && noRejoin socket mongoConnected (stepOp socket mongoConnected st op) rest

/-- Total number of membership entries, over all rooms, carrying the given
socket id. -/
def totalCount (sid : String) (ru : List (String × List Member)) : Nat :=
  (ru.map (fun p => p.2.countP (fun u => u.socketId == sid))).sum

/-- Along a run, every join_room is issued while the connection appears in
no room's membership. -/
def noDoubleJoin (socket : Socket) (mongoConnected : Bool) (st : ServerState) :
    List RoomOp → Bool
  | [] => true
  | op :: rest =>
    (match op with
     | .join _ => totalCount socket.sockId st.roomUsers == 0
     | _ => true) && noDoubleJoin socket mongoConnected (stepOp socket mongoConnected st op) rest

/-- The room-id keys of an association list are pairwise distinct (every JS
Map satisfies this by construction). -/
def keysNodup (m : List (String × α)) : Prop :=
  (m.map Prod.fst).Nodup

instance (m : List (String × α)) : Decidable (keysNodup m) := by
  unfold keysNodup; infer_instance

/-- The whole system: the set of sockets the transport has admitted
(successfully authenticated connections) plus the server state.  Only
admitted sockets deliver events. -/
structure SysState where
  connected : List Socket
  srv : ServerState
deriving DecidableEq

/-- The Socket.IO auth middleware: reject when the handshake carries no
token or when jwt.verify fails; otherwise admit the socket with the
identity decoded from the token.  `verify` abstracts jwt.verify. -/
def authGate (verify : String → Option (String × String)) (token : Option String) :
    Option (String × String) :=
  match token with
  | none => none
  | some t => verify t

/-- A connection attempt: on auth success the socket is admitted carrying
the decoded identity; on failure the middleware errors out and nothing at
all changes. -/
def connectStep (verify : String → Option (String × String)) (sid : String)
    (token : Option String) (sys : SysState) : SysState :=
  match authGate verify token with
  | none => sys
  | some (uid, uname) => { sys with connected := sys.connected ++ [⟨sid, uid, uname⟩] }

/-- Whether a socket id is currently admitted. -/
def isConnected (sid : String) (sys : SysState) : Bool :=
  sys.connected.any (fun s => s.sockId == sid)

/-- Deliver a room-protocol event from socket `sid`: the transport only
dispatches events of admitted sockets, so an event from an unadmitted id
reaches no handler.  A disconnect also removes the socket from the
admitted set. -/
def sysOp (mongoConnected : Bool) (sid : String) (op : RoomOp) (sys : SysState) : SysState :=
  match sys.connected.find? (fun s => s.sockId == sid) with
  | none => sys
  | some socket =>
    match op with
    | .disc => { connected := sys.connected.eraseP (fun s => s.sockId == sid),
                 srv := (disconnect socket sys.srv).1 }
    | _ => { sys with srv := stepOp socket mongoConnected sys.srv op }

/-- Deliver a sequence of room-protocol events from one socket id. -/
def runSysOps (mongoConnected : Bool) (sid : String) (ops : List RoomOp)
    (sys : SysState) : SysState :=
  ops.foldl (fun s op => sysOp mongoConnected sid op s) sys

/-- A message store whose room-r messages carry timestamps 0..50: the
fixture for the history-query claims. -/
def demoStore : List Message :=
  (List.range 51).map (fun i => ⟨"m" ++ toString i, "r", "alice", "u1", "hi", i⟩)

theorem mapDelete_of_get_none {α : Type} {k : String} {m : List (String × α)}
    (h : mapGet k m = none) : mapDelete k m = m := by
  unfold mapGet at h
  unfold mapDelete
  apply List.eraseP_of_forall_not
  intro p hp
  rcases hfind : m.find? (fun q => q.1 == k) with _ | q
  · have := List.find?_eq_none.mp hfind p hp
    simpa using this
  · rw [hfind] at h; simp at h

theorem mapGet_eq_none_of_not_mem_keys {α : Type} {k : String} {m : List (String × α)}
    (h : k ∉ m.map Prod.fst) : mapGet k m = none := by
  unfold mapGet
  rw [List.find?_eq_none.mpr]
  · rfl
  · intro p hp hbeq
    apply h
    simp only [List.mem_map]
    refine ⟨p, hp, ?_⟩
    simpa using hbeq

theorem mapGet_mapDelete_none {α : Type} {k : String} {m : List (String × α)}
    (h : keysNodup m) : mapGet k (mapDelete k m) = none := by
  induction m with
  | nil => rfl
  | cons p m ih =>
    unfold keysNodup at h
    simp only [List.map_cons, List.nodup_cons] at h
    by_cases hpk : p.1 = k
    · have : mapDelete k (p :: m) = m := by
        unfold mapDelete
        rw [List.eraseP_cons_of_pos]
        simpa using hpk
      rw [this]
      exact mapGet_eq_none_of_not_mem_keys (by rw [← hpk]; exact h.1)
    · have : mapDelete k (p :: m) = p :: mapDelete k m := by
        unfold mapDelete
        rw [List.eraseP_cons_of_neg]
        simpa using hpk
      rw [this]
      unfold mapGet
      rw [List.find?_cons_of_neg _ (by simpa using hpk)]
      exact ih h.2

/-- Claim C1: the history delivered on join and by the HTTP read is claimed
to be the 50 most recent messages oldest-first.  On a room holding 51
messages with timestamps 0..50, the MongoDB branch (sort ascending, then
limit 50) returns the messages with timestamps 0..49 — the 50 oldest — while
the in-memory fallback branch returns timestamps 1..50, the 50 most recent
oldest-first, as the spec states.  The two branches disagree and the MongoDB
branch contradicts the claimed (and fallback-implemented) semantics. -/
theorem mongo_history_query_returns_oldest_fifty :
    (recentMessagesMongo "r" demoStore).map Message.timestamp = List.range 50 ∧
    (recentMessagesFallback "r" demoStore).map Message.timestamp
      = (List.range 50).map (· + 1) ∧
    recentMessagesMongo "r" demoStore ≠ recentMessagesFallback "r" demoStore := by
  refine ⟨by decide, by decide, by decide⟩

/-- Claim C4 counterexample: a connection that never joined any room (no
users-map entry, not listed in room r) issues send_message for room r; the
message is appended to the store and a receive_message broadcast is emitted,
so the event is not silently ignored. -/
theorem send_from_outside_room_persists_and_broadcasts :
    let st : ServerState :=
      ⟨[("d1", ⟨"u2", "bob", "r"⟩)], [("r", [⟨"u2", "bob", "d1"⟩])], []⟩
    let out := sendMessage ⟨"s9", "u9", "eve"⟩ ⟨"r", "hi", "eve", "u9"⟩ false true "m1" 5 st
    roomCount "s9" "r" st = 0 ∧ mapGet "s9" st.users = none ∧
    out.1.messagesStore = [⟨"m1", "r", "eve", "u9", "hi", 5⟩] ∧
    out.2 = [Emit.receiveMessage "r" "u9" "eve" "hi" 5 "m1"] := by
  decide

/-- Claim C4 (amended): send_message performs no membership check; even from
a connection that is in no room (no users-map entry, not listed in the
target room), a successful append stores the payload message and emits the
receive_message broadcast exactly as for a member. -/
theorem send_message_ignores_membership (socket : Socket) (d : SendPayload)
    (mongoConnected saveOk : Bool) (newId : String) (now : Nat) (st : ServerState)
    (hout : roomCount socket.sockId d.roomId st = 0)
    (hnosess : mapGet socket.sockId st.users = none)
    (hok : (if mongoConnected then saveOk else true) = true) :
    sendMessage socket d mongoConnected saveOk newId now st =
      ({ st with messagesStore :=
          st.messagesStore ++ [⟨newId, d.roomId, d.username, d.userId, d.text, now⟩] },
       [Emit.receiveMessage d.roomId d.userId d.username d.text now newId]) := by
  unfold sendMessage
  rw [hok]
  simp

/-- Claim C4 amended-theorem witness at a concrete non-member sender. -/
theorem send_message_ignores_membership_witness :
    sendMessage ⟨"s9", "u9", "eve"⟩ ⟨"q", "yo", "eve", "u9"⟩ false true "m2" 7
        ⟨[], [("q", [⟨"u2", "bob", "d1"⟩])], []⟩ =
      (⟨[], [("q", [⟨"u2", "bob", "d1"⟩])], [⟨"m2", "q", "eve", "u9", "yo", 7⟩]⟩,
       [Emit.receiveMessage "q" "u9" "eve" "yo" 7 "m2"]) :=
  send_message_ignores_membership ⟨"s9", "u9", "eve"⟩ ⟨"q", "yo", "eve", "u9"⟩
    false true "m2" 7 ⟨[], [("q", [⟨"u2", "bob", "d1"⟩])], []⟩
    (by decide) (by decide) (by decide)

/-- Claim C5: when the store append throws (mongo mode, saveOk false) the
handler emits nothing and the state is exactly unchanged; in every mode the
handler never touches the users map or the membership lists; and whenever a
broadcast is emitted, the store was extended by the message first. -/
theorem send_message_failure_drops_and_preserves_state (socket : Socket)
    (d : SendPayload) (newId : String) (now : Nat) (st : ServerState) :
    sendMessage socket d true false newId now st = (st, []) ∧
    (∀ mongoConnected saveOk,
      (sendMessage socket d mongoConnected saveOk newId now st).1.users = st.users ∧
      (sendMessage socket d mongoConnected saveOk newId now st).1.roomUsers = st.roomUsers) ∧
    (∀ mongoConnected saveOk,
      (sendMessage socket d mongoConnected saveOk newId now st).2 ≠ [] →
      (sendMessage socket d mongoConnected saveOk newId now st).1.messagesStore
        = st.messagesStore ++ [⟨newId, d.roomId, d.username, d.userId, d.text, now⟩]) := by
  refine ⟨rfl, ?_, ?_⟩
  · intro mongoConnected saveOk
    cases mongoConnected <;> cases saveOk <;> simp [sendMessage]
  · intro mongoConnected saveOk h
    cases mongoConnected <;> cases saveOk <;> simp [sendMessage] at h ⊢

/-- Claim C5 witness: failure drops the message at a concrete input, and a
successful send at the same input broadcasts only after appending. -/
theorem send_message_failure_witness :
    sendMessage ⟨"s1", "u1", "alice"⟩ ⟨"r", "hi", "alice", "u1"⟩ true false "m1" 3
        ⟨[], [], []⟩ = (⟨[], [], []⟩, []) ∧
    (sendMessage ⟨"s1", "u1", "alice"⟩ ⟨"r", "hi", "alice", "u1"⟩ false true "m1" 3
        ⟨[], [], []⟩).1.messagesStore = [⟨"m1", "r", "alice", "u1", "hi", 3⟩] := by
  refine ⟨(send_message_failure_drops_and_preserves_state _ _ _ _ _).1, ?_⟩
  exact ((send_message_failure_drops_and_preserves_state ⟨"s1", "u1", "alice"⟩
    ⟨"r", "hi", "alice", "u1"⟩ "m1" 3 ⟨[], [], []⟩).2.2 false true (by decide))

/-- Claim C7: the identity carried in the persisted message and in the
receive_message and user_left broadcasts comes from the client payload, not
the authenticated session: two sockets with the same transport id but
different authenticated userId/username produce identical results for the
same payload. -/
theorem broadcast_identity_from_payload_not_session (sid uid1 un1 uid2 un2 : String)
    (d : SendPayload) (l : LeavePayload) (mongoConnected saveOk : Bool)
    (newId : String) (now : Nat) (st : ServerState) :
    sendMessage ⟨sid, uid1, un1⟩ d mongoConnected saveOk newId now st
      = sendMessage ⟨sid, uid2, un2⟩ d mongoConnected saveOk newId now st ∧
    leaveRoom ⟨sid, uid1, un1⟩ l st = leaveRoom ⟨sid, uid2, un2⟩ l st :=
  ⟨rfl, rfl⟩

theorem removeMember_of_not_mem_keys {r sid : String} {ru : List (String × List Member)}
    (h : ∀ q ∈ ru, ¬ q.1 = r) : removeMember r sid ru = ru := by
  induction ru with
  | nil => rfl
  | cons p ru ih =>
    unfold removeMember
    simp only [List.map_cons]
    rw [if_neg (by simpa using h p (List.mem_cons_self p ru))]
    have := ih (fun q hq => h q (List.mem_cons_of_mem p hq))
    unfold removeMember at this
    rw [this]

theorem removeMember_id {r sid : String} {ru : List (String × List Member)}
    (hnd : keysNodup ru)
    (hno : ∀ u ∈ (mapGet r ru).getD [], ¬ u.socketId = sid) :
    removeMember r sid ru = ru := by
  induction ru with
  | nil => rfl
  | cons p ru ih =>
    unfold keysNodup at hnd
    simp only [List.map_cons, List.nodup_cons] at hnd
    by_cases hpk : p.1 = r
    · have hget : mapGet r (p :: ru) = some p.2 := by
        unfold mapGet
        rw [List.find?_cons_of_pos _ (by simpa using hpk)]
        rfl
      rw [hget] at hno
      simp only [Option.getD_some] at hno
      unfold removeMember
      simp only [List.map_cons]
      rw [if_pos (by simpa using hpk)]
      have herase : p.2.eraseP (fun u => u.socketId == sid) = p.2 :=
        List.eraseP_of_forall_not (fun u hu => by simpa using hno u hu)
      rw [herase]
      have htail : removeMember r sid ru = ru := by
        apply removeMember_of_not_mem_keys
        intro q hq hqr
        exact hnd.1 (by
          rw [hpk, ← hqr]
          exact List.mem_map_of_mem Prod.fst hq)
      unfold removeMember at htail
      rw [htail]
    · have hget : mapGet r (p :: ru) = mapGet r ru := by
        unfold mapGet
        rw [List.find?_cons_of_neg _ (by simpa using hpk)]
      rw [hget] at hno
      unfold removeMember
      simp only [List.map_cons]
      rw [if_neg (by simpa using hpk)]
      have := ih hnd.2 hno
      unfold removeMember at this
      rw [this]

/-- Claim C6 counterexample: the connection s1 is a member of room A only;
its leave_room for room B leaves every membership list unchanged but still
broadcasts a user_left event to room B, so the event is not a complete
no-op. -/
theorem leave_foreign_room_still_broadcasts :
    roomCount "s1" "B"
      ⟨[("s1", ⟨"u1", "alice", "A"⟩)],
       [("A", [⟨"u1", "alice", "s1"⟩]), ("B", [⟨"u2", "bob", "s2"⟩])], []⟩ = 0 ∧
    leaveRoom ⟨"s1", "u1", "alice"⟩ ⟨"B", "u1", "alice"⟩
      ⟨[("s1", ⟨"u1", "alice", "A"⟩)],
       [("A", [⟨"u1", "alice", "s1"⟩]), ("B", [⟨"u2", "bob", "s2"⟩])], []⟩ =
      (⟨[("s1", ⟨"u1", "alice", "A"⟩)],
        [("A", [⟨"u1", "alice", "s1"⟩]), ("B", [⟨"u2", "bob", "s2"⟩])], []⟩,
       [Emit.userLeft "B" "alice" "u1" [⟨"u2", "bob", "s2"⟩]]) := by
  decide

/-- Claim C6 (amended): leave_room from a connection with no users-map entry
is a complete no-op; from a connection with a users-map entry that is not a
member of the target room, all membership lists are unchanged, yet a
user_left event carrying the payload identity and the room's unchanged
membership is still broadcast to that room. -/
theorem leave_room_noop_cases (socket : Socket) (d : LeavePayload) (st : ServerState) :
    (mapGet socket.sockId st.users = none → leaveRoom socket d st = (st, [])) ∧
    (∀ sess, mapGet socket.sockId st.users = some sess →
      keysNodup st.roomUsers →
      roomCount socket.sockId d.roomId st = 0 →
      (leaveRoom socket d st).1 = st ∧
      (leaveRoom socket d st).2 =
        [Emit.userLeft d.roomId d.username d.userId (membersOf d.roomId st)]) := by
  constructor
  · intro h
    simp [leaveRoom, h]
  · intro sess h hnd hcount
    have hrm : removeMember d.roomId socket.sockId st.roomUsers = st.roomUsers := by
      apply removeMember_id hnd
      intro u hu husid
      have := List.countP_eq_zero.mp hcount u hu
      simp at this
      exact this husid
    refine ⟨?_, ?_⟩
    · simp [leaveRoom, h, hrm]
    · simp [leaveRoom, h, hrm, membersOf]

/-- Claim C6 amended-theorem witness: both cases at concrete inputs. -/
theorem leave_room_noop_cases_witness :
    leaveRoom ⟨"s9", "u9", "eve"⟩ ⟨"B", "u9", "eve"⟩
      ⟨[("s1", ⟨"u1", "alice", "A"⟩)],
       [("A", [⟨"u1", "alice", "s1"⟩]), ("B", [⟨"u2", "bob", "s2"⟩])], []⟩ =
      (⟨[("s1", ⟨"u1", "alice", "A"⟩)],
        [("A", [⟨"u1", "alice", "s1"⟩]), ("B", [⟨"u2", "bob", "s2"⟩])], []⟩, []) ∧
    (leaveRoom ⟨"s1", "u1", "alice"⟩ ⟨"B", "u1", "alice"⟩
      ⟨[("s1", ⟨"u1", "alice", "A"⟩)],
       [("A", [⟨"u1", "alice", "s1"⟩]), ("B", [⟨"u2", "bob", "s2"⟩])], []⟩).1 =
      ⟨[("s1", ⟨"u1", "alice", "A"⟩)],
       [("A", [⟨"u1", "alice", "s1"⟩]), ("B", [⟨"u2", "bob", "s2"⟩])], []⟩ := by
  constructor
  · exact (leave_room_noop_cases ⟨"s9", "u9", "eve"⟩ ⟨"B", "u9", "eve"⟩
      ⟨[("s1", ⟨"u1", "alice", "A"⟩)],
       [("A", [⟨"u1", "alice", "s1"⟩]), ("B", [⟨"u2", "bob", "s2"⟩])], []⟩).1 (by decide)
  · exact ((leave_room_noop_cases ⟨"s1", "u1", "alice"⟩ ⟨"B", "u1", "alice"⟩
      ⟨[("s1", ⟨"u1", "alice", "A"⟩)],
       [("A", [⟨"u1", "alice", "s1"⟩]), ("B", [⟨"u2", "bob", "s2"⟩])], []⟩).2
      ⟨"u1", "alice", "A"⟩ (by decide) (by decide) (by decide)).1

/-- Claim C8: the disconnect teardown is idempotent on the presence state
(users map and all membership lists): running it twice from any state with
unique users-map keys equals running it once, and running it for an unknown
connection id leaves the state exactly unchanged. -/
theorem disconnect_idempotent (socket : Socket) (st : ServerState)
    (hnd : keysNodup st.users) :
    (disconnect socket (disconnect socket st).1).1 = (disconnect socket st).1 ∧
    (mapGet socket.sockId st.users = none → (disconnect socket st).1 = st) := by
  have noop : ∀ st' : ServerState, mapGet socket.sockId st'.users = none →
      (disconnect socket st').1 = st' := by
    intro st' h
    simp [disconnect, h, mapDelete_of_get_none h]
  constructor
  · rcases h : mapGet socket.sockId st.users with _ | sess
    · rw [noop st h]
      exact noop st h
    · have husers : (disconnect socket st).1.users = mapDelete socket.sockId st.users := by
        simp [disconnect, h]
      apply noop
      rw [husers]
      exact mapGet_mapDelete_none hnd
  · exact noop st

/-- Claim C8 witness: idempotence for a member of room A, and the no-op for
an unknown connection id, both at concrete states. -/
theorem disconnect_idempotent_witness :
    (disconnect ⟨"s1", "u1", "alice"⟩
        (disconnect ⟨"s1", "u1", "alice"⟩
          ⟨[("s1", ⟨"u1", "alice", "A"⟩)], [("A", [⟨"u1", "alice", "s1"⟩])], []⟩).1).1 =
      (disconnect ⟨"s1", "u1", "alice"⟩
        ⟨[("s1", ⟨"u1", "alice", "A"⟩)], [("A", [⟨"u1", "alice", "s1"⟩])], []⟩).1 ∧
    (disconnect ⟨"s7", "u7", "gil"⟩
        ⟨[("s1", ⟨"u1", "alice", "A"⟩)], [("A", [⟨"u1", "alice", "s1"⟩])], []⟩).1 =
      ⟨[("s1", ⟨"u1", "alice", "A"⟩)], [("A", [⟨"u1", "alice", "s1"⟩])], []⟩ := by
  constructor
  · exact (disconnect_idempotent ⟨"s1", "u1", "alice"⟩
      ⟨[("s1", ⟨"u1", "alice", "A"⟩)], [("A", [⟨"u1", "alice", "s1"⟩])], []⟩ (by decide)).1
  · exact (disconnect_idempotent ⟨"s7", "u7", "gil"⟩
      ⟨[("s1", ⟨"u1", "alice", "A"⟩)], [("A", [⟨"u1", "alice", "s1"⟩])], []⟩ (by decide)).2
      (by decide)

/-- Claim C10: for a connection with a session in a room, the user_left
broadcast of the disconnect teardown and the resulting membership lists are
identical to those of an explicit leave_room of that room whose payload
carries the session's stored room and identity. -/
theorem disconnect_matches_explicit_leave (socket : Socket) (st : ServerState)
    (sess : Session) (h : mapGet socket.sockId st.users = some sess) :
    (disconnect socket st).2 =
      (leaveRoom socket ⟨sess.roomId, sess.userId, sess.username⟩ st).2 ∧
    (disconnect socket st).1.roomUsers =
      (leaveRoom socket ⟨sess.roomId, sess.userId, sess.username⟩ st).1.roomUsers := by
  constructor <;> simp [disconnect, leaveRoom, h]

/-- Claim C10 witness: a two-member room, one member disconnects. -/
theorem disconnect_matches_explicit_leave_witness :
    (disconnect ⟨"s1", "u1", "alice"⟩
        ⟨[("s1", ⟨"u1", "alice", "A"⟩)],
         [("A", [⟨"u1", "alice", "s1"⟩, ⟨"u2", "bob", "s2"⟩])], []⟩).2 =
      (leaveRoom ⟨"s1", "u1", "alice"⟩ ⟨"A", "u1", "alice"⟩
        ⟨[("s1", ⟨"u1", "alice", "A"⟩)],
         [("A", [⟨"u1", "alice", "s1"⟩, ⟨"u2", "bob", "s2"⟩])], []⟩).2 :=
  (disconnect_matches_explicit_leave ⟨"s1", "u1", "alice"⟩
    ⟨[("s1", ⟨"u1", "alice", "A"⟩)],
     [("A", [⟨"u1", "alice", "s1"⟩, ⟨"u2", "bob", "s2"⟩])], []⟩
    ⟨"u1", "alice", "A"⟩ (by decide)).1

/-- Claim C9: a rejected connection attempt (missing token or failed
verification) changes nothing at all, and no room-protocol event issued on
an unadmitted connection id is ever processed: the users map, the
membership lists and the message store all stay exactly as they were. -/
theorem auth_rejection_creates_no_state (verify : String → Option (String × String))
    (sid : String) (token : Option String) (sys : SysState) (mongoConnected : Bool)
    (ops : List RoomOp)
    (hauth : authGate verify token = none)
    (hconn : isConnected sid sys = false) :
    connectStep verify sid token sys = sys ∧ runSysOps mongoConnected sid ops sys = sys := by
  have hfind : sys.connected.find? (fun s => s.sockId == sid) = none := by
    rw [List.find?_eq_none]
    intro s hs hbeq
    have : sys.connected.any (fun s => s.sockId == sid) = true :=
      List.any_eq_true.mpr ⟨s, hs, hbeq⟩
    rw [isConnected] at hconn
    rw [hconn] at this
    cases this
  constructor
  · simp [connectStep, hauth]
  · have hstep : ∀ op, sysOp mongoConnected sid op sys = sys := by
      intro op
      simp [sysOp, hfind]
    induction ops with
    | nil => rfl
    | cons op rest ih =>
      show List.foldl _ _ (op :: rest) = sys
      rw [List.foldl_cons, hstep op]
      exact ih

/-- Claim C9 witness: a token the verifier rejects leaves an empty system
untouched and a subsequent join_room from the unadmitted socket is ignored. -/
theorem auth_rejection_creates_no_state_witness :
    connectStep (fun _ => none) "s1" (some "badtoken") ⟨[], ⟨[], [], []⟩⟩ =
      ⟨[], ⟨[], [], []⟩⟩ ∧
    runSysOps false "s1" [RoomOp.join "A"] ⟨[], ⟨[], [], []⟩⟩ = ⟨[], ⟨[], [], []⟩⟩ :=
  auth_rejection_creates_no_state (fun _ => none) "s1" (some "badtoken")
    ⟨[], ⟨[], [], []⟩⟩ false [RoomOp.join "A"] rfl rfl

theorem mapGet_cons_self {α : Type} {r : String} {p : String × α} {m : List (String × α)}
    (h : p.1 = r) : mapGet r (p :: m) = some p.2 := by
  unfold mapGet
  rw [List.find?_cons_of_pos _ (by simpa using h)]
  rfl

theorem mapGet_cons_ne {α : Type} {r : String} {p : String × α} {m : List (String × α)}
    (h : ¬ p.1 = r) : mapGet r (p :: m) = mapGet r m := by
  unfold mapGet
  rw [List.find?_cons_of_neg _ (by simpa using h)]

theorem mapGet_append_none {α : Type} {r : String} {m₁ m₂ : List (String × α)}
    (h : mapGet r m₁ = none) : mapGet r (m₁ ++ m₂) = mapGet r m₂ := by
  induction m₁ with
  | nil => rfl
  | cons p m₁ ih =>
    by_cases hpr : p.1 = r
    · rw [mapGet_cons_self hpr] at h
      cases h
    · rw [mapGet_cons_ne hpr] at h
      rw [List.cons_append, mapGet_cons_ne hpr]
      exact ih h

theorem not_mem_keys_of_mapGet_none {α : Type} {k : String} {m : List (String × α)}
    (h : mapGet k m = none) : k ∉ m.map Prod.fst := by
  intro hmem
  obtain ⟨p, hp, hpk⟩ := List.mem_map.mp hmem
  unfold mapGet at h
  have hfind := Option.map_eq_none.mp h
  exact absurd (by simpa using hpk) (by simpa using List.find?_eq_none.mp hfind p hp)

theorem mapGet_pushMember (k r : String) (mem : Member) (ru : List (String × List Member)) :
    mapGet r (pushMember k mem ru) =
      if r = k then (mapGet r ru).map (fun l => l ++ [mem]) else mapGet r ru := by
  induction ru with
  | nil => by_cases h : r = k <;> simp [pushMember, mapGet, h]
  | cons p ru ih =>
    unfold pushMember at ih ⊢
    simp only [List.map_cons]
    by_cases hpk : p.1 = k <;> by_cases hpr : p.1 = r
    · have hrk : r = k := by rw [← hpr, hpk]
      rw [if_pos (by simpa using hpk), mapGet_cons_self (p := (p.1, p.2 ++ [mem])) hpr,
        mapGet_cons_self hpr, if_pos hrk]
      rfl
    · have hrk : ¬ r = k := fun hh => hpr (by rw [hpk, ← hh])
      rw [if_pos (by simpa using hpk), mapGet_cons_ne (p := (p.1, p.2 ++ [mem])) hpr,
        mapGet_cons_ne hpr, ih, if_neg hrk]
    · have hrk : ¬ r = k := fun hh => hpk (by rw [hpr, hh])
      rw [if_neg (by simpa using hpk), if_neg hrk, mapGet_cons_self hpr, mapGet_cons_self hpr]
    · rw [if_neg (by simpa using hpk), mapGet_cons_ne hpr, mapGet_cons_ne hpr, ih]

theorem mapGet_removeMember (k r sid : String) (ru : List (String × List Member)) :
    mapGet r (removeMember k sid ru) =
      if r = k then (mapGet r ru).map (fun l => l.eraseP (fun u => u.socketId == sid))
      else mapGet r ru := by
  induction ru with
  | nil => by_cases h : r = k <;> simp [removeMember, mapGet, h]
  | cons p ru ih =>
    unfold removeMember at ih ⊢
    simp only [List.map_cons]
    by_cases hpk : p.1 = k <;> by_cases hpr : p.1 = r
    · have hrk : r = k := by rw [← hpr, hpk]
      rw [if_pos (by simpa using hpk),
        mapGet_cons_self (p := (p.1, p.2.eraseP (fun u => u.socketId == sid))) hpr,
        mapGet_cons_self hpr, if_pos hrk]
      rfl
    · have hrk : ¬ r = k := fun hh => hpr (by rw [hpk, ← hh])
      rw [if_pos (by simpa using hpk),
        mapGet_cons_ne (p := (p.1, p.2.eraseP (fun u => u.socketId == sid))) hpr,
        mapGet_cons_ne hpr, ih, if_neg hrk]
    · have hrk : ¬ r = k := fun hh => hpk (by rw [hpr, hh])
      rw [if_neg (by simpa using hpk), if_neg hrk, mapGet_cons_self hpr, mapGet_cons_self hpr]
    · rw [if_neg (by simpa using hpk), mapGet_cons_ne hpr, mapGet_cons_ne hpr, ih]

theorem mapGet_ensureRoom_self (roomId : String) (ru : List (String × List Member)) :
    mapGet roomId (ensureRoom roomId ru) = some ((mapGet roomId ru).getD []) := by
  unfold ensureRoom
  rcases h : mapGet roomId ru with _ | l
  · rw [if_neg (by simp [h]), mapGet_append_none h,
      mapGet_cons_self (p := (roomId, ([] : List Member))) rfl]
    rfl
  · rw [if_pos (by simp [h]), h]
    rfl

theorem mapGet_append_some {α : Type} {r : String} {m₁ m₂ : List (String × α)} {v : α}
    (h : mapGet r m₁ = some v) : mapGet r (m₁ ++ m₂) = some v := by
  induction m₁ with
  | nil => cases h
  | cons p m₁ ih =>
    by_cases hpr : p.1 = r
    · rw [mapGet_cons_self hpr] at h
      rw [List.cons_append, mapGet_cons_self hpr]
      exact h
    · rw [mapGet_cons_ne hpr] at h
      rw [List.cons_append, mapGet_cons_ne hpr]
      exact ih h

theorem mapGet_ensureRoom_ne {r roomId : String} (ru : List (String × List Member))
    (h : ¬ r = roomId) : mapGet r (ensureRoom roomId ru) = mapGet r ru := by
  unfold ensureRoom
  split
  · rfl
  · rcases hg : mapGet r ru with _ | l
    · rw [mapGet_append_none hg, mapGet_cons_ne (by simpa using fun hh => h (Eq.symm hh))]
      rfl
    · exact mapGet_append_some hg

theorem membersOf_joinRoom (socket : Socket) (roomId : String) (mc f : Bool)
    (st : ServerState) (r : String) :
    membersOf r (joinRoom socket roomId mc f st).1 =
      if r = roomId then
        membersOf r st ++ [⟨socket.userId, socket.username, socket.sockId⟩]
      else membersOf r st := by
  have hru : (joinRoom socket roomId mc f st).1.roomUsers =
      pushMember roomId ⟨socket.userId, socket.username, socket.sockId⟩
        (ensureRoom roomId st.roomUsers) := rfl
  unfold membersOf
  rw [hru, mapGet_pushMember]
  by_cases h : r = roomId
  · rw [if_pos h, if_pos h]
    subst h
    rw [mapGet_ensureRoom_self]
    simp [membersOf]
  · rw [if_neg h, if_neg h, mapGet_ensureRoom_ne _ h]

theorem roomUsers_sendMessage (socket : Socket) (d : SendPayload) (mc ok : Bool)
    (nid : String) (now : Nat) (st : ServerState) :
    (sendMessage socket d mc ok nid now st).1.roomUsers = st.roomUsers := by
  cases mc <;> cases ok <;> simp [sendMessage]

theorem roomUsers_leaveRoom (socket : Socket) (d : LeavePayload) (st : ServerState) :
    (leaveRoom socket d st).1.roomUsers = st.roomUsers ∨
    (leaveRoom socket d st).1.roomUsers =
      removeMember d.roomId socket.sockId st.roomUsers := by
  rcases h : mapGet socket.sockId st.users with _ | u
  · left
    simp [leaveRoom, h]
  · right
    simp [leaveRoom, h]

theorem roomUsers_disconnect (socket : Socket) (st : ServerState) :
    (disconnect socket st).1.roomUsers = st.roomUsers ∨
    ∃ rm, (disconnect socket st).1.roomUsers = removeMember rm socket.sockId st.roomUsers := by
  rcases h : mapGet socket.sockId st.users with _ | u
  · left
    simp [disconnect, h]
  · right
    exact ⟨u.roomId, by simp [disconnect, h]⟩

theorem countP_removeMember_le (sid k sid' : String) (ru : List (String × List Member))
    (r : String) :
    ((mapGet r (removeMember k sid' ru)).getD []).countP (fun u => u.socketId == sid) ≤
      ((mapGet r ru).getD []).countP (fun u => u.socketId == sid) := by
  rw [mapGet_removeMember]
  by_cases h : r = k
  · rw [if_pos h]
    rcases mapGet r ru with _ | l
    · simp
    · simp only [Option.map_some', Option.getD_some]
      exact (List.eraseP_sublist _).countP_le _
  · rw [if_neg h]

/-- Claim C2 counterexample: on one connection, the event sequence
join_room(r), join_room(r) from the empty server leaves room r listing the
same connection id twice: the join handler appends unconditionally. -/
theorem double_join_duplicates_membership :
    roomCount "s1" "r"
      (runOps ⟨"s1", "u1", "alice"⟩ false ⟨[], [], []⟩
        [RoomOp.join "r", RoomOp.join "r"]) = 2 := by
  decide

/-- Claim C2 (amended): along any sequence of join_room, leave_room and
disconnect events on one connection in which every join_room targets a room
whose membership does not already list this connection, no room's membership
ever lists the connection id twice; the handler does not guard against
re-joining, so only such sequences keep the invariant. -/
theorem no_duplicate_membership_of_noRejoin :
    ∀ (ops : List RoomOp) (socket : Socket) (mongoConnected : Bool) (st : ServerState),
      noRejoin socket mongoConnected st ops = true →
      (∀ r, roomCount socket.sockId r st ≤ 1) →
      ∀ r, roomCount socket.sockId r (runOps socket mongoConnected st ops) ≤ 1 := by
  intro ops
  induction ops with
  | nil =>
    intro socket mc st _ hinv r
    exact hinv r
  | cons op rest ih =>
    intro socket mc st hg hinv r
    unfold noRejoin at hg
    rw [Bool.and_eq_true] at hg
    have hrun : runOps socket mc st (op :: rest)
        = runOps socket mc (stepOp socket mc st op) rest := rfl
    rw [hrun]
    apply ih socket mc _ hg.2
    intro r'
    cases op with
    | join roomId =>
      have hz : roomCount socket.sockId roomId st = 0 := by
        have h1 := hg.1
        simpa using h1
      show ((membersOf r' (joinRoom socket roomId mc true st).1).countP
        (fun u => u.socketId == socket.sockId)) ≤ 1
      rw [membersOf_joinRoom]
      by_cases h : r' = roomId
      · rw [if_pos h, List.countP_append]
        have h1 : (membersOf r' st).countP (fun u => u.socketId == socket.sockId) = 0 := by
          rw [h]
          exact hz
        have h2 : List.countP (fun u => u.socketId == socket.sockId)
            [(⟨socket.userId, socket.username, socket.sockId⟩ : Member)] ≤ 1 := by
          simp [List.countP_cons]
        omega
      · rw [if_neg h]
        exact hinv r'
    | send d ok nid now =>
      show ((membersOf r' (sendMessage socket d mc ok nid now st).1).countP
        (fun u => u.socketId == socket.sockId)) ≤ 1
      unfold membersOf
      rw [roomUsers_sendMessage]
      exact hinv r'
    | leave d =>
      show ((membersOf r' (leaveRoom socket d st).1).countP
        (fun u => u.socketId == socket.sockId)) ≤ 1
      unfold membersOf
      rcases roomUsers_leaveRoom socket d st with h | h
      · rw [h]
        exact hinv r'
      · rw [h]
        exact le_trans (countP_removeMember_le _ _ _ _ _) (hinv r')
    | disc =>
      show ((membersOf r' (disconnect socket st).1).countP
        (fun u => u.socketId == socket.sockId)) ≤ 1
      unfold membersOf
      rcases roomUsers_disconnect socket st with h | ⟨rm, h⟩
      · rw [h]
        exact hinv r'
      · rw [h]
        exact le_trans (countP_removeMember_le _ _ _ _ _) (hinv r')

/-- Claim C2 amended-theorem witness: join, leave, re-join of room A never
lists the connection twice. -/
theorem no_duplicate_membership_of_noRejoin_witness :
    noRejoin ⟨"s1", "u1", "alice"⟩ false ⟨[], [], []⟩
      [RoomOp.join "A", RoomOp.leave ⟨"A", "u1", "alice"⟩, RoomOp.join "A"] = true ∧
    roomCount "s1" "A"
      (runOps ⟨"s1", "u1", "alice"⟩ false ⟨[], [], []⟩
        [RoomOp.join "A", RoomOp.leave ⟨"A", "u1", "alice"⟩, RoomOp.join "A"]) ≤ 1 := by
  refine ⟨by decide, ?_⟩
  exact no_duplicate_membership_of_noRejoin
    [RoomOp.join "A", RoomOp.leave ⟨"A", "u1", "alice"⟩, RoomOp.join "A"]
    ⟨"s1", "u1", "alice"⟩ false ⟨[], [], []⟩ (by decide)
    (fun r => by simp [roomCount, membersOf, mapGet]) "A"

theorem pushMember_of_not_mem_keys {k : String} {mem : Member}
    {ru : List (String × List Member)} (h : ∀ q ∈ ru, ¬ q.1 = k) :
    pushMember k mem ru = ru := by
  induction ru with
  | nil => rfl
  | cons p ru ih =>
    unfold pushMember at ih ⊢
    simp only [List.map_cons]
    rw [if_neg (by simpa using h p (List.mem_cons_self p ru)),
      ih (fun q hq => h q (List.mem_cons_of_mem p hq))]

theorem keys_pushMember (k : String) (mem : Member) (ru : List (String × List Member)) :
    (pushMember k mem ru).map Prod.fst = ru.map Prod.fst := by
  unfold pushMember
  induction ru with
  | nil => rfl
  | cons p ru ih =>
    simp only [List.map_cons]
    rw [ih]
    congr 1
    by_cases h : p.1 = k
    · rw [if_pos (by simpa using h)]
    · rw [if_neg (by simpa using h)]

theorem keys_removeMember (k sid : String) (ru : List (String × List Member)) :
    (removeMember k sid ru).map Prod.fst = ru.map Prod.fst := by
  unfold removeMember
  induction ru with
  | nil => rfl
  | cons p ru ih =>
    simp only [List.map_cons]
    rw [ih]
    congr 1
    by_cases h : p.1 = k
    · rw [if_pos (by simpa using h)]
    · rw [if_neg (by simpa using h)]

theorem keysNodup_pushMember {k : String} {mem : Member} {ru : List (String × List Member)}
    (h : keysNodup ru) : keysNodup (pushMember k mem ru) := by
  unfold keysNodup at h ⊢
  rw [keys_pushMember]
  exact h

theorem keysNodup_removeMember {k sid : String} {ru : List (String × List Member)}
    (h : keysNodup ru) : keysNodup (removeMember k sid ru) := by
  unfold keysNodup at h ⊢
  rw [keys_removeMember]
  exact h

theorem keysNodup_ensureRoom {roomId : String} {ru : List (String × List Member)}
    (h : keysNodup ru) : keysNodup (ensureRoom roomId ru) := by
  unfold ensureRoom
  split
  · exact h
  · rename_i hsome
    have hnone : mapGet roomId ru = none :=
      Option.not_isSome_iff_eq_none.mp (by simpa using hsome)
    unfold keysNodup at h ⊢
    rw [List.map_append]
    apply List.Nodup.append h (by simp)
    intro a ha hb
    simp only [List.map_cons, List.map_nil, List.mem_singleton] at hb
    subst hb
    exact not_mem_keys_of_mapGet_none hnone ha

theorem totalCount_ensureRoom (sid roomId : String) (ru : List (String × List Member)) :
    totalCount sid (ensureRoom roomId ru) = totalCount sid ru := by
  unfold ensureRoom
  split
  · rfl
  · unfold totalCount
    rw [List.map_append, List.sum_append]
    simp

theorem totalCount_pushMember_le (sid k : String) (mem : Member)
    (ru : List (String × List Member)) (h : keysNodup ru) :
    totalCount sid (pushMember k mem ru) ≤ totalCount sid ru + 1 := by
  induction ru with
  | nil =>
    simp [pushMember, totalCount]
  | cons p ru ih =>
    unfold keysNodup at h
    simp only [List.map_cons, List.nodup_cons] at h
    unfold pushMember totalCount at ih ⊢
    simp only [List.map_cons, List.sum_cons]
    by_cases hpk : p.1 = k
    · rw [if_pos (by simpa using hpk)]
      have htail : ru.map (fun q => if q.1 == k then (q.1, q.2 ++ [mem]) else q) = ru := by
        have htail0 : pushMember k mem ru = ru :=
          pushMember_of_not_mem_keys (fun q hq hqk => h.1 (by
            rw [hpk, ← hqk]
            exact List.mem_map_of_mem Prod.fst hq))
        unfold pushMember at htail0
        exact htail0
      rw [htail, List.countP_append]
      have hone : List.countP (fun u => u.socketId == sid) [mem] ≤ 1 := by
        by_cases hms : mem.socketId = sid <;> simp [List.countP_cons, hms]
      omega
    · rw [if_neg (by simpa using hpk)]
      have := ih (by unfold keysNodup; exact h.2)
      omega

theorem totalCount_removeMember_le (sid k sid' : String)
    (ru : List (String × List Member)) :
    totalCount sid (removeMember k sid' ru) ≤ totalCount sid ru := by
  induction ru with
  | nil => exact Nat.le_refl _
  | cons p ru ih =>
    unfold removeMember totalCount at ih ⊢
    simp only [List.map_cons, List.sum_cons]
    by_cases hpk : p.1 = k
    · rw [if_pos (by simpa using hpk)]
      exact Nat.add_le_add ((List.eraseP_sublist _).countP_le _) ih
    · rw [if_neg (by simpa using hpk)]
      exact Nat.add_le_add_left ih _

theorem stepOp_nodup_total (socket : Socket) (mc : Bool) (st : ServerState) (op : RoomOp)
    (hnd : keysNodup st.roomUsers)
    (htot : totalCount socket.sockId st.roomUsers ≤ 1)
    (hguard : (match op with
               | RoomOp.join _ => totalCount socket.sockId st.roomUsers == 0
               | _ => true) = true) :
    keysNodup (stepOp socket mc st op).roomUsers ∧
    totalCount socket.sockId (stepOp socket mc st op).roomUsers ≤ 1 := by
  cases op with
  | join roomId =>
    have hz : totalCount socket.sockId st.roomUsers = 0 := by simpa using hguard
    have hru : (stepOp socket mc st (RoomOp.join roomId)).roomUsers =
        pushMember roomId ⟨socket.userId, socket.username, socket.sockId⟩
          (ensureRoom roomId st.roomUsers) := rfl
    rw [hru]
    refine ⟨keysNodup_pushMember (keysNodup_ensureRoom hnd), ?_⟩
    have h1 := totalCount_pushMember_le socket.sockId roomId
      ⟨socket.userId, socket.username, socket.sockId⟩
      (ensureRoom roomId st.roomUsers) (keysNodup_ensureRoom hnd)
    rw [totalCount_ensureRoom, hz] at h1
    exact h1
  | send d ok nid now =>
    have hru : (stepOp socket mc st (RoomOp.send d ok nid now)).roomUsers = st.roomUsers :=
      roomUsers_sendMessage socket d mc ok nid now st
    rw [hru]
    exact ⟨hnd, htot⟩
  | leave d =>
    rcases roomUsers_leaveRoom socket d st with h | h
    · rw [show (stepOp socket mc st (RoomOp.leave d)).roomUsers
          = (leaveRoom socket d st).1.roomUsers from rfl, h]
      exact ⟨hnd, htot⟩
    · rw [show (stepOp socket mc st (RoomOp.leave d)).roomUsers
          = (leaveRoom socket d st).1.roomUsers from rfl, h]
      exact ⟨keysNodup_removeMember hnd,
        le_trans (totalCount_removeMember_le _ _ _ _) htot⟩
  | disc =>
    rcases roomUsers_disconnect socket st with h | ⟨rm, h⟩
    · rw [show (stepOp socket mc st RoomOp.disc).roomUsers
          = (disconnect socket st).1.roomUsers from rfl, h]
      exact ⟨hnd, htot⟩
    · rw [show (stepOp socket mc st RoomOp.disc).roomUsers
          = (disconnect socket st).1.roomUsers from rfl, h]
      exact ⟨keysNodup_removeMember hnd,
        le_trans (totalCount_removeMember_le _ _ _ _) htot⟩

theorem noDoubleJoin_run_aux :
    ∀ (ops : List RoomOp) (socket : Socket) (mc : Bool) (st : ServerState),
      noDoubleJoin socket mc st ops = true →
      keysNodup st.roomUsers →
      totalCount socket.sockId st.roomUsers ≤ 1 →
      keysNodup (runOps socket mc st ops).roomUsers ∧
      totalCount socket.sockId (runOps socket mc st ops).roomUsers ≤ 1 := by
  intro ops
  induction ops with
  | nil =>
    intro socket mc st _ hnd htot
    exact ⟨hnd, htot⟩
  | cons op rest ih =>
    intro socket mc st hg hnd htot
    unfold noDoubleJoin at hg
    rw [Bool.and_eq_true] at hg
    have hstep := stepOp_nodup_total socket mc st op hnd htot hg.1
    have hrun : runOps socket mc st (op :: rest)
        = runOps socket mc (stepOp socket mc st op) rest := rfl
    rw [hrun]
    exact ih socket mc _ hg.2 hstep.1 hstep.2

/-- Claim C3 counterexample: on one connection, join_room(A) then
join_room(B) from the empty server leaves the connection listed in both
room A and room B: the join handler never removes the prior room's entry. -/
theorem join_two_rooms_both_listed :
    roomCount "s1" "A"
      (runOps ⟨"s1", "u1", "alice"⟩ false ⟨[], [], []⟩
        [RoomOp.join "A", RoomOp.join "B"]) = 1 ∧
    roomCount "s1" "B"
      (runOps ⟨"s1", "u1", "alice"⟩ false ⟨[], [], []⟩
        [RoomOp.join "A", RoomOp.join "B"]) = 1 ∧
    totalCount "s1"
      (runOps ⟨"s1", "u1", "alice"⟩ false ⟨[], [], []⟩
        [RoomOp.join "A", RoomOp.join "B"]).roomUsers = 2 := by
  decide

/-- Claim C3 (amended): along any sequence of join_room, leave_room and
disconnect events on one connection in which every join_room is issued while
the connection appears in no room's membership, the connection appears in at
most one membership entry across all rooms at every step; joining a new room
while still a member of another leaves both entries in place, so only such
sequences keep the invariant. -/
theorem single_room_membership_of_noDoubleJoin (ops : List RoomOp) (socket : Socket)
    (mongoConnected : Bool) (st : ServerState)
    (hg : noDoubleJoin socket mongoConnected st ops = true)
    (hnd : keysNodup st.roomUsers)
    (htot : totalCount socket.sockId st.roomUsers ≤ 1) :
    totalCount socket.sockId (runOps socket mongoConnected st ops).roomUsers ≤ 1 :=
  (noDoubleJoin_run_aux ops socket mongoConnected st hg hnd htot).2

/-- Claim C3 amended-theorem witness: join A, leave A, join B keeps the
connection in at most one room. -/
theorem single_room_membership_of_noDoubleJoin_witness :
    noDoubleJoin ⟨"s1", "u1", "alice"⟩ false ⟨[], [], []⟩
      [RoomOp.join "A", RoomOp.leave ⟨"A", "u1", "alice"⟩, RoomOp.join "B"] = true ∧
    totalCount "s1"
      (runOps ⟨"s1", "u1", "alice"⟩ false ⟨[], [], []⟩
        [RoomOp.join "A", RoomOp.leave ⟨"A", "u1", "alice"⟩,
         RoomOp.join "B"]).roomUsers ≤ 1 := by
  refine ⟨by decide, ?_⟩
  exact single_room_membership_of_noDoubleJoin
    [RoomOp.join "A", RoomOp.leave ⟨"A", "u1", "alice"⟩, RoomOp.join "B"]
    ⟨"s1", "u1", "alice"⟩ false ⟨[], [], []⟩ (by decide) (by decide) (by decide)

end ChatApp
